import Mathlib

/-!
Verification development for the Role_Creator CSV→RDF/XML pipeline.

Shallow embedding of `src/modules/csv_reader.py`, `src/modules/xml_generator.py`
and `src/modules/csv_processor.py`.  Python strings are modelled as Lean
`String`, with all character-level operations implemented explicitly over
`String.data` (the underlying `List Char`) so that every definition evaluates
by `decide`/`rfl`.  Python `dict` rows are modelled as ordered association
lists (`Row`), matching insertion order, which is the iteration order the code
relies on.
-/

namespace RoleCreator

/- ### Python string primitives -/

/-- Characters stripped by Python `str.strip()` with no argument. -/
def isPyWs (c : Char) : Bool :=
  c == ' ' || c == '\t' || c == '\n' || c == '\r' || c == '\x0b' || c == '\x0c'

/-- Python `str.strip()`: drop whitespace from both ends. -/
def pyStripList (cs : List Char) : List Char :=
  ((cs.dropWhile isPyWs).reverse.dropWhile isPyWs).reverse

/-- Python `str.strip()` on a `String`. -/
def pyStrip (s : String) : String := ⟨pyStripList s.data⟩

/-- ASCII lower-casing of one character (Python `str.lower` restricted to the
ASCII field names the configuration uses). -/
def pyLowerChar (c : Char) : Char :=
  if 'A' ≤ c && c ≤ 'Z' then Char.ofNat (c.toNat + 32) else c

/-- Python `str.lower()`. -/
def pyLower (s : String) : String := ⟨s.data.map pyLowerChar⟩

/-- Python substring containment `pat in hay` over character lists. -/
def listContains (pat : List Char) : List Char → Bool
  | [] => pat.isEmpty
  | c :: rest => pat.isPrefixOf (c :: rest) || listContains pat rest

/-- Python `hay.__contains__(pat)` for strings (`pat in hay`). -/
def strContains (hay pat : String) : Bool := listContains pat.data hay.data

/-- Consume `pat` as a prefix of `s`, returning the remainder, or `none` if
`pat` is not a prefix. -/
def remainderAfter : List Char → List Char → Option (List Char)
  | [], s => some s
  | _ :: _, [] => none
  | p :: ps, c :: cs => if p == c then remainderAfter ps cs else none

/-- Worker for `stripOcc`; `fuel` starts at the length of the list, which the
recursion never outruns, making the definition structural. -/
def stripOccAux (pat : List Char) : Nat → List Char → List Char
  | _, [] => []
  | 0, s => s
  | fuel + 1, c :: rest =>
    match remainderAfter pat (c :: rest) with
    | some s2 =>
      if pat.isEmpty then c :: stripOccAux pat fuel rest
      else stripOccAux pat fuel s2
    | none => c :: stripOccAux pat fuel rest

/-- Python `s.replace(pat, ⬝)` with empty replacement, removing every
occurrence of `pat` left to right. -/
def stripOcc (pat : List Char) (s : List Char) : List Char :=
  stripOccAux pat s.length s

/-- Left/right brace, as used by Python `str.strip` with argument `\x7b\x7d`. -/
def isBrace (c : Char) : Bool := c == '\x7b' || c == '\x7d'

/-- Python `s.strip(braces)`: drop braces from both ends. -/
def pyStripBraces (s : List Char) : List Char :=
  ((s.dropWhile isBrace).reverse.dropWhile isBrace).reverse

/-- Hexadecimal digit (either case), as accepted by Python `int(s, 16)`. -/
def isHexDigit (c : Char) : Bool :=
  ('0' ≤ c && c ≤ '9') || ('a' ≤ c && c ≤ 'f') || ('A' ≤ c && c ≤ 'F')

/- ### `csv_reader.is_valid_uuid` -/

/-- The `is_valid_uuid` from `csv_reader.py`: `uuid.UUID(val)` succeeds.  CPython
`uuid.UUID(hex=val)` removes every occurrence of `urn:` and `uuid:`, strips
surrounding braces, deletes every dash and then requires exactly 32
hexadecimal digits.  (The exotic leniencies of `int(s, 16)` — surrounding
whitespace, a sign, digit-separating underscores — are not modelled; no claim
touches them.) -/
def is_valid_uuid (s : String) : Bool :=
  let h1 := stripOcc "urn:".data s.data
  let h2 := stripOcc "uuid:".data h1
  let h3 := pyStripBraces h2
  let h4 := h3.filter (fun c => !(c == '-'))
  h4.length == 32 && h4.all isHexDigit

/- ### Canonical dashed UUID (spec-side definition)

The spec claims `is_valid_uuid` accepts exactly the canonical dashed
8-4-4-4-12 form.  The following definitions formalise that *spec* wording so
it can be compared against the code's behaviour. -/

/-- Consume exactly `n` hexadecimal digits from the front. -/
def chompHex : Nat → List Char → Option (List Char)
  | 0, rest => some rest
  | _ + 1, [] => none
  | n + 1, c :: rest => if isHexDigit c then chompHex n rest else none

/-- Consume one dash from the front. -/
def chompDash : List Char → Option (List Char)
  | [] => none
  | c :: rest => if c = '-' then some rest else none

/-- Spec-side definition: the string is `8hex-4hex-4hex-4hex-12hex`. -/
def isCanonicalDashedUUID (s : String) : Bool :=
  (do
    let r1 ← chompHex 8 s.data
    let r2 ← chompDash r1
    let r3 ← chompHex 4 r2
    let r4 ← chompDash r3
    let r5 ← chompHex 4 r4
    let r6 ← chompDash r5
    let r7 ← chompHex 4 r6
    let r8 ← chompDash r7
    chompHex 12 r8) == some []

/- ### `csv_reader.check_required_fields` -/

/-- A CSV row: ordered field-name/value pairs (a Python `dict` in insertion
order).  Values are strings; `rowGet` is `dict.get`. -/
abbrev Row : Type := List (String × String)

/-- Python `row.get(field)`. -/
def rowGet (row : Row) (k : String) : Option String :=
  (List.find? (fun kv => kv.1 == k) row).map (fun kv => kv.2)

/-- The `check_required_fields` from `csv_reader.py`: each required field must be
present with a nonempty trimmed value; a required field whose lowered name
contains `_uid` must additionally trim to a valid UUID.  (Source messages are
Russian f-strings; the quotes around interpolated values are elided here.) -/
def check_required_fields (row : Row) (required_fields : List String) : Bool × String :=
  match required_fields with
  | [] => (true, "")
  | field :: rest =>
    match rowGet row field with
    | none => (false, "Поле " ++ field ++ " отсутствует или пустое")
    | some val =>
      if pyStrip val = "" then
        (false, "Поле " ++ field ++ " отсутствует или пустое")
      else if strContains (pyLower field) "_uid" then
        if is_valid_uuid (pyStrip val) then
          check_required_fields row rest
        else
          (false, "Поле " ++ field ++ " не является валидным UUID: " ++ pyStrip val)
      else
        check_required_fields row rest

/- ### `csv_reader.iter_csv_rows` -/

/-- Header/key normalisation applied by `iter_csv_rows`
(`k.strip().lower()`). -/
def normKey (k : String) : String := pyLower (pyStrip k)

/-- Row normalisation (`\x7bk.strip().lower(): v for k, v in row.items()\x7d`).
Duplicate-after-normalisation headers are not modelled (Python `DictReader`
already collapses duplicate field names before this point). -/
def normRow (row : Row) : Row := row.map (fun kv => (normKey kv.1, kv.2))

/-- The row-validation loop of `iter_csv_rows`: starting at line number `n`,
normalise each parsed record, skip records failing `check_required_fields`
(the `continue` branch), and yield `(line_num, row)` for the rest. -/
def iterRowsFrom (required_fields : List String) : Nat → List Row → List (Nat × Row)
  | _, [] => []
  | n, r :: rest =>
    let row := normRow r
    if (check_required_fields row required_fields).1 then
      (n, row) :: iterRowsFrom required_fields (n + 1) rest
    else
      iterRowsFrom required_fields (n + 1) rest

/-- The `iter_csv_rows`, row stage: `enumerate(reader, start=2)` over the parsed
records. -/
def iter_csv_rows (required_fields : List String) (records : List Row) : List (Nat × Row) :=
  iterRowsFrom required_fields 2 records

/-- The fallback-encoding list of `iter_csv_rows`
(`[encoding, cp1251, utf-8, utf-8-sig]`). -/
def encodings_to_try (encoding : String) : List String :=
  [encoding, "cp1251", "utf-8", "utf-8-sig"]

/-- A CSV file abstracted by its decode behaviour: `decode enc` is the content
under a *strict* decode in encoding `enc` (`none` = `UnicodeDecodeError`);
`decodeReplace enc` is the always-successful decode with
`errors=replace`. -/
structure EncodedFile where
  decode : String → Option String
  decodeReplace : String → String

/-- First encoding in the list that strictly decodes, with its content
(the `for ... break` loop of `iter_csv_rows`). -/
def firstDecodable (f : EncodedFile) : List String → Option (String × String)
  | [] => none
  | enc :: rest =>
    match f.decode enc with
    | some content => some (enc, content)
    | none => firstDecodable f rest

/-- Encoding-selection stage of `iter_csv_rows`: returns
`(content, used_encoding, errorLogged)`.  The `for/else` construct decodes
with `errors=replace` in the originally guessed encoding and logs an error
when every strict attempt failed. -/
def openWithFallback (f : EncodedFile) (encoding : String) : String × String × Bool :=
  match firstDecodable f (encodings_to_try encoding) with
  | some (enc, content) => (content, enc, false)
  | none => (f.decodeReplace encoding, encoding, true)

/- ### `xml_generator`: XML element model

lxml elements: a tag, attributes, leading text, children and trailing text
(`tail`).  This is the shape both the streaming writer emits and
`etree.indent` rewrites. -/

/-- An XML element as lxml represents it. -/
inductive XElem : Type where
  | mk (tag : String) (attrs : List (String × String)) (text : Option String)
       (children : List XElem) (tail : Option String)

/-- Tag accessor. -/
def tagOf : XElem → String
  | .mk tag _ _ _ _ => tag

/-- Attribute-list accessor. -/
def attrsOf : XElem → List (String × String)
  | .mk _ attrs _ _ _ => attrs

/-- Text accessor. -/
def textOf : XElem → Option String
  | .mk _ _ text _ _ => text

/-- Children accessor. -/
def childrenOf : XElem → List XElem
  | .mk _ _ _ children _ => children

/-- Tail accessor. -/
def tailOf : XElem → Option String
  | .mk _ _ _ _ tail => tail

/-- Replace the tail of an element. -/
def withTail : XElem → Option String → XElem
  | .mk tag attrs text children _, t => .mk tag attrs text children t

/-- Clark notation `\x7bnamespace-uri\x7dname`, as built by the source's
`'\x7b%s\x7dName' % self.namespaces[...]` format strings. -/
def clark (ns name : String) : String := ("\x7b" ++ ns ++ "\x7d") ++ name

/-- The two namespace URIs `add_role_structure` uses
(`self.namespaces['rdf']`, `self.namespaces['cim']`). -/
structure Namespaces where
  rdf : String
  cim : String

/-- The fixed resource identifiers, after the `fixed.get(key, default)`
lookups of `add_role_structure` (configuration value or built-in default). -/
structure FixedResources where
  datagroup_parent_object : String
  privilege_operation : String
  dataitem_category : String
  datagroup_class : String

/-- The built-in defaults of `add_role_structure`. -/
def defaultFixedResources : FixedResources :=
  { datagroup_parent_object := "#_f02c26a7-df3d-43a7-9c61-46d382e31d2c"
    privilege_operation := "#_200006fe-0000-0000-c000-0000006d746c"
    dataitem_category := "#_200006ff-0000-0000-c000-0000006d746c"
    datagroup_class := "#_50000709-0000-0000-c000-0000006d746c" }

/-- One piece of a parsed `str.format` template: literal text or a named
placeholder. -/
inductive TPiece : Type where
  | lit (s : String)
  | ph (field : String)

/-- Python `template.format(**row)` for templates of literals and named
placeholders (the only shape the configured name templates use): the first
placeholder absent from the row raises `KeyError` with that field name. -/
def formatTemplate : List TPiece → Row → Except String String
  | [], _ => .ok ""
  | .lit s :: rest, row => (formatTemplate rest row).map (fun t => s ++ t)
  | .ph f :: rest, row =>
    match rowGet row f with
    | none => .error f
    | some v => (formatTemplate rest row).map (fun t => v ++ t)

/-- The predicate of `next((f for f in data.keys() if '_uid' in f.lower()), None)`,
applied to a row entry. -/
def hasUidKey (kv : String × String) : Bool := strContains (pyLower kv.1) "_uid"

/-- The `AccessXMLGenerator.add_role_structure`: the four-entity graph one
validated row emits.  Streaming (`xf.element` / `xf.write`) is modelled by
the ordered list of top-level elements actually written before control
returns or an exception is raised, paired with the raised exception if any
(`KeyError` from template formatting, `ValueError` when no `_uid` field
exists).  The four UUIDs `gen_uid()` draws are passed as parameters. -/
def add_role_structure (ns : Namespaces) (fixed : FixedResources)
    (role_template datagroup_template : List TPiece) (data : Row)
    (folder_uid role_uid privilege_uid datagroup_uid objectref_uid : String) :
    List XElem × Option String :=
  match formatTemplate role_template data with
  | .error f => ([], some ("KeyError: " ++ f))
  | .ok role_name =>
    match formatTemplate datagroup_template data with
    | .error f => ([], some ("KeyError: " ++ f))
    | .ok datagroup_name =>
      let roleElem : XElem := .mk (clark ns.cim "Role")
        [(clark ns.rdf "about", "#_" ++ role_uid)] none
        [ .mk (clark ns.cim "IdentifiedObject.name") [] (some role_name) [] none
        , .mk (clark ns.cim "IdentifiedObject.ParentObject")
            [(clark ns.rdf "resource", "#_" ++ folder_uid)] none [] none
        , .mk (clark ns.cim "Role.kind")
            [(clark ns.rdf "resource", "cim:RoleKind.allow")] none [] none
        , .mk (clark ns.cim "Role.isHost") [] (some "false") [] none
        , .mk (clark ns.cim "Role.isUser") [] (some "true") [] none
        , .mk (clark ns.cim "Role.Privileges")
            [(clark ns.rdf "resource", "#_" ++ privilege_uid)] none [] none ] none
      let privElem : XElem := .mk (clark ns.cim "Privilege")
        [(clark ns.rdf "about", "#_" ++ privilege_uid)] none
        [ .mk (clark ns.cim "Privilege.Role")
            [(clark ns.rdf "resource", "#_" ++ role_uid)] none [] none
        , .mk (clark ns.cim "Privilege.DataItems")
            [(clark ns.rdf "resource", "#_" ++ datagroup_uid)] none [] none
        , .mk (clark ns.cim "Privilege.Operation")
            [(clark ns.rdf "resource", fixed.privilege_operation)] none [] none ] none
      let dgElem : XElem := .mk (clark ns.cim "DataGroup")
        [(clark ns.rdf "about", "#_" ++ datagroup_uid)] none
        [ .mk (clark ns.cim "IdentifiedObject.name") [] (some datagroup_name) [] none
        , .mk (clark ns.cim "IdentifiedObject.ParentObject")
            [(clark ns.rdf "resource", fixed.datagroup_parent_object)] none [] none
        , .mk (clark ns.cim "DataItem.isHostRestricted") [] (some "false") [] none
        , .mk (clark ns.cim "DataItem.isUserRestricted") [] (some "true") [] none
        , .mk (clark ns.cim "DataItem.Privileges")
            [(clark ns.rdf "resource", "#_" ++ privilege_uid)] none [] none
        , .mk (clark ns.cim "DataItem.Category")
            [(clark ns.rdf "resource", fixed.dataitem_category)] none [] none
        , .mk (clark ns.cim "DataGroup.Class")
            [(clark ns.rdf "resource", fixed.datagroup_class)] none [] none
        , .mk (clark ns.cim "DataGroup.Objects")
            [(clark ns.rdf "resource", "#_" ++ objectref_uid)] none [] none ] none
      match List.find? hasUidKey data with
      | none =>
        ([roleElem, privElem, dgElem], some "ValueError: не найдено поле _uid для ObjectReference.objectUid")
      | some kv =>
        let objElem : XElem := .mk (clark ns.cim "ObjectReference")
          [(clark ns.rdf "about", "#_" ++ objectref_uid)] none
          [ .mk (clark ns.cim "ObjectReference.objectUid") [] (some kv.2) [] none
          , .mk (clark ns.cim "ObjectReference.Group")
              [(clark ns.rdf "resource", "#_" ++ datagroup_uid)] none [] none ] none
        ([roleElem, privElem, dgElem, objElem], none)

/- ### Observation helpers over emitted elements (verification layer) -/

/-- Value of an attribute by name. -/
def attrVal (e : XElem) (name : String) : Option String :=
  (List.find? (fun kv => kv.1 == name) (attrsOf e)).map (fun kv => kv.2)

/-- The `rdf:about` identity of an element. -/
def aboutAttr (ns : Namespaces) (e : XElem) : Option String :=
  attrVal e (clark ns.rdf "about")

/-- The `rdf:resource` reference of an element. -/
def resourceAttr (ns : Namespaces) (e : XElem) : Option String :=
  attrVal e (clark ns.rdf "resource")

/-- First child element carrying the given tag. -/
def firstChildWithTag (e : XElem) (t : String) : Option XElem :=
  List.find? (fun c => tagOf c == t) (childrenOf e)

/-- The `rdf:resource` of the first `cim:<name>` child. -/
def linkRes (ns : Namespaces) (e : XElem) (name : String) : Option String :=
  (firstChildWithTag e (clark ns.cim name)).bind (resourceAttr ns)

/-- The text of the `ObjectReference.objectUid` child of the first
`cim:ObjectReference` element of the emitted list, if any. -/
def objectUidText (ns : Namespaces) (es : List XElem) : Option String :=
  (List.find? (fun e => tagOf e == clark ns.cim "ObjectReference") es).bind
    (fun e => (firstChildWithTag e (clark ns.cim "ObjectReference.objectUid")).bind textOf)

/- ### `xml_generator.format_xml_pretty`

`format_xml_pretty` re-parses the written file and calls
`etree.indent(root, space="  ")` before rewriting it.  Parsing and
serialisation are deterministic and mutually inverse on the element trees at
hand, so the pass is modelled by the tree transformation `etree.indent`
performs (the algorithm of `xml.etree.ElementTree.indent`, which lxml
mirrors): an element's whitespace-only or missing `text`/`tail` slots are
overwritten with newline-plus-indentation; non-whitespace content is kept. -/

/-- The `level * space` characters of padding. -/
def indentPad (sp : List Char) : Nat → List Char
  | 0 => []
  | l + 1 => sp ++ indentPad sp l

/-- The indentation string for nesting level `l`: a newline plus `l` copies
of the space unit. -/
def indentStr (sp : List Char) (l : Nat) : String := ⟨'\n' :: indentPad sp l⟩

/-- Python `not t or not t.strip()`: the slot is absent, empty or
whitespace-only. -/
def wsOpt : Option String → Bool
  | none => true
  | some s => s.data.all isPyWs

/-- The dedent step after the child loop: the last child's tail, which the
loop always set to a string, is pulled back to the parent's indentation when
it is whitespace-only. -/
def dedentLast (indentation : String) : List XElem → List XElem
  | [] => []
  | [c] => [if wsOpt (tailOf c) then withTail c (some indentation) else c]
  | c :: rest => c :: dedentLast indentation rest

mutual

/-- The `_indent_children(elem, level)` of `ElementTree.indent`: overwrite a
whitespace-only `text` with the child indentation, process each child
(recursing only into children that themselves have children, then setting a
whitespace-only tail to the child indentation), and dedent after the last
child.  Only ever invoked on elements with children; the childless branch is
unreachable at call sites. -/
def indentChildren (sp : List Char) (level : Nat) : XElem → XElem
  | .mk tag attrs text children tail =>
    match children with
    | [] => .mk tag attrs text [] tail
    | c :: rest =>
      let text2 := if wsOpt text then some (indentStr sp (level + 1)) else text
      let cs2 := indentLoop sp (level + 1) (c :: rest)
      .mk tag attrs text2 (dedentLast (indentStr sp level) cs2) tail

/-- The `for child in elem` loop of `_indent_children`, at child level
`childLevel`. -/
def indentLoop (sp : List Char) (childLevel : Nat) : List XElem → List XElem
  | [] => []
  | c :: rest =>
    let c1 := if (childrenOf c).isEmpty then c else indentChildren sp childLevel c
    let c2 := if wsOpt (tailOf c1) then withTail c1 (some (indentStr sp childLevel)) else c1
    c2 :: indentLoop sp childLevel rest

end

/-- The `etree.indent(tree, space, level=0)`: a tree without children is returned
untouched. -/
def etreeIndent (sp : List Char) (e : XElem) : XElem :=
  if (childrenOf e).isEmpty then e else indentChildren sp 0 e

/-- The `format_xml_pretty` at tree level: `etree.indent(root, space="  ")`. -/
def format_xml_pretty (e : XElem) : XElem := etreeIndent "  ".data e

/- ### `csv_processor` -/

/-- The outcome of the two fallible stages of
`CSVProcessor.process_csv_file_stream` for one file: `read_encoding` (first
`try`), and XML generation plus pretty-printing (second `try`, whose body is
`generate_xml` + `format_xml_pretty`).  `error` models a raised exception. -/
structure FileOutcome where
  encodingResult : Except String String
  generateResult : Except String Unit

/-- Whether an `Except` is a success. -/
def exceptOk {ε α : Type} : Except ε α → Bool
  | .ok _ => true
  | .error _ => false

/-- The `CSVProcessor.process_csv_file_stream`: `False` when encoding detection
raises, `False` when generation/pretty-printing raises, `True` otherwise. -/
def process_csv_file_stream (o : FileOutcome) : Bool :=
  match o.encodingResult with
  | .error _ => false
  | .ok _ =>
    match o.generateResult with
    | .error _ => false
    | .ok _ => true

/-- Python `pathlib.PurePath.stem`: the final component without its last
suffix; a leading dot or a trailing dot does not start a suffix. -/
def pyStem (name : String) : String :=
  let cs := name.data
  match List.findIdx? (fun c => c == '.') cs.reverse with
  | none => name
  | some j =>
    let i := cs.length - 1 - j
    if 0 < i ∧ i < cs.length - 1 then ⟨cs.take i⟩ else name

/-- The `Path(csv_dir) / filename` (POSIX join; no normalisation needed for the
claims at hand). -/
def pathJoin (dir name : String) : String := dir ++ "/" ++ name

/-- The XML output path `BatchProcessor.process_file_list` derives for one
input: same directory, same stem, `.xml` extension. -/
def xml_path_for (csv_dir csv_filename : String) : String :=
  pathJoin csv_dir (pyStem csv_filename ++ ".xml")

/-- Python `dict` insertion `results[k] = v`: update in place if the key
exists, else append. -/
def dictInsert (m : List (String × Bool)) (k : String) (v : Bool) : List (String × Bool) :=
  match m with
  | [] => [(k, v)]
  | kv :: rest => if kv.1 == k then (k, v) :: rest else kv :: dictInsert rest k v

/-- The loop of `BatchProcessor.process_file_list`, threading the `results`
dict.  `outcome csvPath xmlPath` abstracts what one call of
`process_csv_file_stream` encounters for the given input/output paths. -/
def processFileListAux (outcome : String → String → FileOutcome) (csv_dir : String) :
    List String → List (String × Bool) → List (String × Bool)
  | [], results => results
  | f :: rest, results =>
    let b := process_csv_file_stream (outcome (pathJoin csv_dir f) (xml_path_for csv_dir f))
    processFileListAux outcome csv_dir rest (dictInsert results f b)

/-- The `BatchProcessor.process_file_list`. -/
def process_file_list (outcome : String → String → FileOutcome) (csv_dir : String)
    (file_list : List String) : List (String × Bool) :=
  processFileListAux outcome csv_dir file_list []

/-- Python `dict` lookup `results[k]` on the association-list model. -/
def dictLookup (m : List (String × Bool)) (k : String) : Option Bool :=
  (List.find? (fun kv => kv.1 == k) m).map (fun kv => kv.2)

/- ## Theorems -/

/- ### Helpers for `check_required_fields` -/

/-- A required field whose lowered name contains `_uid` and whose trimmed
value is present, nonempty and not a valid UUID makes validation fail. -/
theorem check_fails_on_bad_uid (row : Row) :
    ∀ (req : List String) (field v : String), field ∈ req →
      strContains (pyLower field) "_uid" = true →
      rowGet row field = some v → pyStrip v ≠ "" →
      is_valid_uuid (pyStrip v) = false →
      (check_required_fields row req).1 = false := by
  intro req
  induction req with
  | nil =>
    intro field v hmem
    exact absurd hmem (List.not_mem_nil field)
  | cons f rest ih =>
    intro field v hmem huid hget hne hbad
    rcases List.mem_cons.mp hmem with heq | hmem2
    · subst heq
      simp [check_required_fields, hget, hne, huid, hbad]
    · simp only [check_required_fields]
      cases hg : rowGet row f with
      | none => simp
      | some w =>
        by_cases hw : pyStrip w = ""
        · simp [hw]
        · by_cases hu : strContains (pyLower f) "_uid" = true
          · by_cases hv : is_valid_uuid (pyStrip w) = true
            · simpa [hw, hu, hv] using ih field v hmem2 huid hget hne hbad
            · simp [hw, hu, hv]
          · simpa [hw, hu] using ih field v hmem2 huid hget hne hbad

/-- Validation succeeds when every required field is present with a nonempty
trimmed value, and additionally trims to a valid UUID whenever the lowered
field name contains `_uid`; fields without `_uid` in their name face no UUID
requirement. -/
theorem check_ok_of_fields_ok (row : Row) :
    ∀ req : List String,
      (∀ f ∈ req, ∃ v, rowGet row f = some v ∧ pyStrip v ≠ "" ∧
        (strContains (pyLower f) "_uid" = true → is_valid_uuid (pyStrip v) = true)) →
      check_required_fields row req = (true, "") := by
  intro req
  induction req with
  | nil => intro _; rfl
  | cons f rest ih =>
    intro h
    obtain ⟨v, hget, hne, huuid⟩ := h f (List.mem_cons_self f rest)
    have hrest := ih (fun g hg => h g (List.mem_cons_of_mem f hg))
    by_cases hu : strContains (pyLower f) "_uid" = true
    · simp [check_required_fields, hget, hne, hu, huuid hu, hrest]
    · simp [check_required_fields, hget, hne, hu, hrest]

/- ### Claim C1 -/

/-- C1, counterexample to the claim as stated: the required field `uid`
contains the substring `uid` and its value `not-a-uuid` is not a valid UUID,
yet the row passes validation — the code keys the UUID check on the substring
`_uid`, not `uid`. -/
theorem C1_counterexample :
    strContains (pyLower "uid") "uid" = true ∧
    is_valid_uuid (pyStrip "not-a-uuid") = false ∧
    (check_required_fields [("uid", "not-a-uuid")] ["uid"]).1 = true := by
  refine ⟨by decide, by decide, by decide⟩

/-- C1 (amended): row validation applies the UUID syntax check to exactly
those required fields whose name contains the substring `_uid`
(case-insensitive): a row with such a field whose trimmed value is nonempty
but not a syntactically valid UUID fails validation, and UUID checking is
never applied to a required field whose name does not contain `_uid` — a row
all of whose required fields have nonempty trimmed values, with valid UUIDs
exactly in the `_uid`-named ones, passes. -/
theorem C1_uid_check_on_underscore_uid_fields (row : Row) (req : List String) :
    (∀ field v, field ∈ req →
      strContains (pyLower field) "_uid" = true →
      rowGet row field = some v → pyStrip v ≠ "" →
      is_valid_uuid (pyStrip v) = false →
      (check_required_fields row req).1 = false) ∧
    ((∀ f ∈ req, ∃ v, rowGet row f = some v ∧ pyStrip v ≠ "" ∧
        (strContains (pyLower f) "_uid" = true → is_valid_uuid (pyStrip v) = true)) →
      check_required_fields row req = (true, "")) := by
  constructor
  · intro field v hmem huid hget hne hbad
    exact check_fails_on_bad_uid row req field v hmem huid hget hne hbad
  · exact check_ok_of_fields_ok row req

/-- C1 witness: the amended theorem applied at a concrete row and
required-field list, both directions. -/
theorem C1_witness :
    (check_required_fields [("user_uid", "zzz"), ("org", "A")] ["user_uid", "org"]).1 = false ∧
    check_required_fields
      [("user_uid", "3fa85f64-5717-4562-b3fc-2c963f66afa6"), ("org", "A")]
      ["user_uid", "org"] = (true, "") := by
  constructor
  · exact (C1_uid_check_on_underscore_uid_fields
      [("user_uid", "zzz"), ("org", "A")] ["user_uid", "org"]).1
      "user_uid" "zzz" (by decide) (by decide) (by decide) (by decide) (by decide)
  · refine (C1_uid_check_on_underscore_uid_fields
      [("user_uid", "3fa85f64-5717-4562-b3fc-2c963f66afa6"), ("org", "A")]
      ["user_uid", "org"]).2 ?_
    intro f hf
    rcases List.mem_cons.mp hf with h | h
    · exact ⟨"3fa85f64-5717-4562-b3fc-2c963f66afa6", by subst h; decide,
        by subst h; decide, by subst h; intro _; decide⟩
    · have : f = "org" := by simpa using h
      exact ⟨"A", by subst this; decide, by subst this; decide,
        by subst this; intro hc; exact absurd hc (by decide)⟩

/- ### Claim C10 -/

/-- C10: with an empty configured required-field list, validation accepts
every row with an empty error message, and the Row Reader yields every parsed
data row, in order, with line numbers from 2. -/
theorem C10_empty_required_fields_accepts_all (row : Row) (records : List Row) :
    check_required_fields row [] = (true, "") ∧
    iter_csv_rows [] records = List.enumFrom 2 (records.map normRow) := by
  constructor
  · rfl
  · show iterRowsFrom [] 2 records = List.enumFrom 2 (records.map normRow)
    generalize 2 = n
    induction records generalizing n with
    | nil => rfl
    | cons r rest ih => simp [iterRowsFrom, check_required_fields, List.enumFrom, ih]

/- ### Claim C6 -/

/-- The validation loop, started at any line number, equals filtering the
enumerated normalised records. -/
theorem iterRowsFrom_eq_filter (req : List String) (records : List Row) :
    ∀ n, iterRowsFrom req n records =
      List.filter (fun p => (check_required_fields p.2 req).1)
        (List.enumFrom n (records.map normRow)) := by
  induction records with
  | nil => intro n; rfl
  | cons r rest ih =>
    intro n
    by_cases h : (check_required_fields (normRow r) req).1 = true
    · simp [iterRowsFrom, List.enumFrom, List.filter, h, ih]
    · simp [iterRowsFrom, List.enumFrom, List.filter, h, ih]

/-- C6: the Row Reader yields exactly the (normalised) records that pass
required-field validation, each exactly once, in file order, paired with line
numbers `2, 3, 4, …` by physical position; failing records are skipped and
processing continues. -/
theorem C6_yields_exactly_valid_rows (req : List String) (records : List Row) :
    iter_csv_rows req records =
      List.filter (fun p => (check_required_fields p.2 req).1)
        (List.enumFrom 2 (records.map normRow)) :=
  iterRowsFrom_eq_filter req records 2

/- ### Claim C4 -/

/-- C4: encoding selection tries, in order, the guess, `cp1251`, `utf-8`,
`utf-8-sig`, each as a strict whole-file decode, and uses the first that
succeeds (no error logged); if all four fail, the file is decoded once more
with the guessed encoding substituting invalid characters and an error is
logged instead of failing. -/
theorem C4_encoding_fallback_order (f : EncodedFile) (guess : String) :
    (∀ i content, i < (encodings_to_try guess).length →
      List.all (List.take i (encodings_to_try guess)) (fun e => (f.decode e).isNone) = true →
      f.decode (List.getD (encodings_to_try guess) i "") = some content →
      openWithFallback f guess = (content, List.getD (encodings_to_try guess) i "", false)) ∧
    ((∀ e ∈ encodings_to_try guess, f.decode e = none) →
      openWithFallback f guess = (f.decodeReplace guess, guess, true)) := by
  constructor
  · intro i content hi hall hdec
    have hi4 : i < 4 := by simpa [encodings_to_try] using hi
    interval_cases i
    · have hd : f.decode guess = some content := hdec
      simp [openWithFallback, firstDecodable, encodings_to_try, hd]
    · simp only [encodings_to_try, List.take, List.all_cons, Bool.and_eq_true,
        Option.isNone_iff_eq_none] at hall
      have h0 : f.decode guess = none := hall.1
      have hd : f.decode "cp1251" = some content := hdec
      simp [openWithFallback, firstDecodable, encodings_to_try, h0, hd]
    · simp only [encodings_to_try, List.take, List.all_cons, Bool.and_eq_true,
        Option.isNone_iff_eq_none] at hall
      obtain ⟨h0, h1, -⟩ := hall
      have hd : f.decode "utf-8" = some content := hdec
      simp [openWithFallback, firstDecodable, encodings_to_try, h0, h1, hd]
    · simp only [encodings_to_try, List.take, List.all_cons, Bool.and_eq_true,
        Option.isNone_iff_eq_none] at hall
      obtain ⟨h0, h1, h2, -⟩ := hall
      have hd : f.decode "utf-8-sig" = some content := hdec
      simp [openWithFallback, firstDecodable, encodings_to_try, h0, h1, h2, hd]
  · intro hall
    have h0 := hall guess (by simp [encodings_to_try])
    have h1 := hall "cp1251" (by simp [encodings_to_try])
    have h2 := hall "utf-8" (by simp [encodings_to_try])
    have h3 := hall "utf-8-sig" (by simp [encodings_to_try])
    simp [openWithFallback, firstDecodable, encodings_to_try, h0, h1, h2, h3]

/-- C4 witness: a file strictly decodable only as `utf-8` is decoded with
`utf-8` (third in the try order) and no error, via the theorem at index 2;
a file decodable under no listed encoding falls back to replacement decoding
under the guess, with an error, via the second conjunct. -/
theorem C4_witness :
    openWithFallback ⟨fun e => if e == "utf-8" then some "content" else none,
        fun _ => "subst"⟩ "koi8-r" = ("content", "utf-8", false) ∧
    openWithFallback ⟨fun _ => none, fun _ => "subst"⟩ "koi8-r" =
      ("subst", "koi8-r", true) := by
  constructor
  · exact (C4_encoding_fallback_order
      ⟨fun e => if e == "utf-8" then some "content" else none, fun _ => "subst"⟩
      "koi8-r").1 2 "content" (by decide) (by decide) (by decide)
  · exact (C4_encoding_fallback_order ⟨fun _ => none, fun _ => "subst"⟩ "koi8-r").2
      (fun e _ => rfl)

/- ### Claim C5 -/

/-- If some character of `pat` does not occur in `s`, `pat` is not a prefix
of `s`. -/
theorem remainderAfter_eq_none (ch : Char) :
    ∀ (pat s : List Char), ch ∈ pat → ch ∉ s → remainderAfter pat s = none := by
  intro pat
  induction pat with
  | nil => intro s h; exact absurd h (List.not_mem_nil ch)
  | cons p ps ih =>
    intro s hmem hnot
    cases s with
    | nil => rfl
    | cons c cs =>
      simp only [remainderAfter]
      by_cases hpc : p == c
      · have hpceq : p = c := by simpa using hpc
        have hchp : ch ≠ p := by
          intro h
          exact hnot (by simp [h ▸ hpceq])
        have hps : ch ∈ ps := by
          rcases List.mem_cons.mp hmem with h | h
          · exact absurd h hchp
          · exact h
        have hcs : ch ∉ cs := fun h => hnot (List.mem_cons_of_mem c h)
        simp [hpc, ih cs hps hcs]
      · simp [hpc]

/-- The `str.replace(pat, ⬝)` leaves a string unchanged when some character of
the pattern never occurs in it. -/
theorem stripOccAux_of_not_mem (ch : Char) (pat : List Char) (hch : ch ∈ pat) :
    ∀ (fuel : Nat) (s : List Char), ch ∉ s → stripOccAux pat fuel s = s := by
  intro fuel
  induction fuel with
  | zero =>
    intro s _
    cases s with
    | nil => rfl
    | cons c cs => rfl
  | succ fuel ih =>
    intro s hnot
    cases s with
    | nil => rfl
    | cons c cs =>
      have hn : remainderAfter pat (c :: cs) = none := remainderAfter_eq_none ch pat (c :: cs) hch hnot
      have hcs : ch ∉ cs := fun h => hnot (List.mem_cons_of_mem c h)
      simp [stripOccAux, hn, ih cs hcs]

/-- The `stripOcc` version of the invariance lemma. -/
theorem stripOcc_of_not_mem (ch : Char) (pat s : List Char) (hch : ch ∈ pat)
    (hs : ch ∉ s) : stripOcc pat s = s :=
  stripOccAux_of_not_mem ch pat hch s.length s hs

/-- The `dropWhile` is the identity when no element satisfies the predicate. -/
theorem dropWhile_of_all_neg {p : Char → Bool} :
    ∀ s : List Char, (∀ c ∈ s, p c = false) → s.dropWhile p = s := by
  intro s h
  cases s with
  | nil => rfl
  | cons c cs => simp [List.dropWhile, h c (List.mem_cons_self c cs)]

/-- Brace-stripping is the identity on brace-free strings. -/
theorem pyStripBraces_of_no_braces (s : List Char) (h : ∀ c ∈ s, isBrace c = false) :
    pyStripBraces s = s := by
  unfold pyStripBraces
  rw [dropWhile_of_all_neg s h]
  rw [dropWhile_of_all_neg s.reverse (fun c hc => h c (List.mem_reverse.mp hc))]
  exact List.reverse_reverse s

/-- Inversion for `chompHex`: the consumed prefix is `n` hex digits. -/
theorem chompHex_some :
    ∀ (n : Nat) (cs rest : List Char), chompHex n cs = some rest →
      ∃ pre, cs = pre ++ rest ∧ pre.length = n ∧ ∀ c ∈ pre, isHexDigit c = true := by
  intro n
  induction n with
  | zero =>
    intro cs rest h
    refine ⟨[], ?_, rfl, by simp⟩
    simpa [chompHex] using h
  | succ n ih =>
    intro cs rest h
    cases cs with
    | nil => exact absurd h (by simp [chompHex])
    | cons c cs2 =>
      by_cases hc : isHexDigit c = true
      · have h2 : chompHex n cs2 = some rest := by simpa [chompHex, hc] using h
        obtain ⟨pre, hpre, hlen, hhex⟩ := ih cs2 rest h2
        refine ⟨c :: pre, by simp [hpre], by simp [hlen], ?_⟩
        intro d hd
        rcases List.mem_cons.mp hd with h | h
        · exact h ▸ hc
        · exact hhex d h
      · exact absurd h (by simp [chompHex, hc])

/-- Inversion for `chompDash`. -/
theorem chompDash_some (cs rest : List Char) (h : chompDash cs = some rest) :
    cs = '-' :: rest := by
  cases cs with
  | nil => exact absurd h (by simp [chompDash])
  | cons c cs2 =>
    by_cases hc : c = '-'
    · subst hc
      have : cs2 = rest := by simpa [chompDash] using h
      rw [this]
    · exact absurd h (by simp [chompDash, hc])

/-- The `filter` keeps hex-digit-only segments whole. -/
theorem filter_ne_dash_of_hex (p : List Char) (hp : ∀ c ∈ p, isHexDigit c = true) :
    List.filter (fun c => !(c == '-')) p = p := by
  refine List.filter_eq_self.mpr ?_
  intro c hc
  have hhex := hp c hc
  simp only [Bool.not_eq_true', beq_eq_false_iff_ne, ne_eq]
  intro heq
  rw [heq] at hhex
  exact absurd hhex (by decide)

/-- C5, counterexample to the claim as stated: Python `uuid.UUID` also
accepts the undashed 32-hex form, which is not canonical dashed 8-4-4-4-12,
so `is_valid_uuid` is not equivalent to the canonical-form check. -/
theorem C5_counterexample :
    is_valid_uuid "3fa85f6457174562b3fc2c963f66afa6" = true ∧
    isCanonicalDashedUUID "3fa85f6457174562b3fc2c963f66afa6" = false ∧
    is_valid_uuid "urn:uuid:3fa85f64-5717-4562-b3fc-2c963f66afa6" = true ∧
    is_valid_uuid "\x7b3fa85f64-5717-4562-b3fc-2c963f66afa6\x7d" = true := by
  refine ⟨by decide, by decide, by decide, by decide⟩

/-- C5 (amended): every string in canonical dashed 8-4-4-4-12 hex form
passes the UUID syntax check; however the check is strictly more liberal
(per the counterexample it also accepts undashed, braced and URN-prefixed
forms, as Python `uuid.UUID` does). -/
theorem C5_canonical_dashed_accepted (s : String) (h : isCanonicalDashedUUID s = true) :
    is_valid_uuid s = true := by
  have hc : (do
      let r1 ← chompHex 8 s.data
      let r2 ← chompDash r1
      let r3 ← chompHex 4 r2
      let r4 ← chompDash r3
      let r5 ← chompHex 4 r4
      let r6 ← chompDash r5
      let r7 ← chompHex 4 r6
      let r8 ← chompDash r7
      chompHex 12 r8) = some [] := by
    simpa [isCanonicalDashedUUID] using h
  simp only [Option.bind_eq_bind, Option.bind_eq_some] at hc
  obtain ⟨r1, h1, r2, h2, r3, h3, r4, h4, r5, h5, r6, h6, r7, h7, r8, h8, h9⟩ := hc
  obtain ⟨p1, e1, l1, x1⟩ := chompHex_some 8 s.data r1 h1
  have d1 := chompDash_some r1 r2 h2
  obtain ⟨p2, e2, l2, x2⟩ := chompHex_some 4 r2 r3 h3
  have d2 := chompDash_some r3 r4 h4
  obtain ⟨p3, e3, l3, x3⟩ := chompHex_some 4 r4 r5 h5
  have d3 := chompDash_some r5 r6 h6
  obtain ⟨p4, e4, l4, x4⟩ := chompHex_some 4 r6 r7 h7
  have d4 := chompDash_some r7 r8 h8
  obtain ⟨p5, e5, l5, x5⟩ := chompHex_some 12 r8 [] h9
  have e5' : r8 = p5 := by simpa using e5
  have hsd : s.data = p1 ++ '-' :: (p2 ++ '-' :: (p3 ++ '-' :: (p4 ++ '-' :: p5))) := by
    rw [e1, d1, e2, d2, e3, d3, e4, d4, e5']
  have hgood : ∀ c ∈ s.data, isHexDigit c = true ∨ c = '-' := by
    intro c hc2
    rw [hsd] at hc2
    simp only [List.mem_append, List.mem_cons] at hc2
    rcases hc2 with h | h | h | h | h | h | h | h | h
    · exact Or.inl (x1 c h)
    · exact Or.inr h
    · exact Or.inl (x2 c h)
    · exact Or.inr h
    · exact Or.inl (x3 c h)
    · exact Or.inr h
    · exact Or.inl (x4 c h)
    · exact Or.inr h
    · exact Or.inl (x5 c h)
  have hcolon : ':' ∉ s.data := by
    intro hmem
    rcases hgood ':' hmem with h | h
    · exact absurd h (by decide)
    · exact absurd h (by decide)
  have hbrace : ∀ c ∈ s.data, isBrace c = false := by
    intro c hc2
    rcases hgood c hc2 with h | h
    · cases hb : isBrace c with
      | false => rfl
      | true =>
        have : c = '\x7b' ∨ c = '\x7d' := by simpa [isBrace] using hb
        rcases this with hcc | hcc <;> rw [hcc] at h <;> exact absurd h (by decide)
    · rw [h]; decide
  have s1 : stripOcc "urn:".data s.data = s.data :=
    stripOcc_of_not_mem ':' "urn:".data s.data (by decide) hcolon
  have s2 : stripOcc "uuid:".data s.data = s.data :=
    stripOcc_of_not_mem ':' "uuid:".data s.data (by decide) hcolon
  have s3 : pyStripBraces s.data = s.data := pyStripBraces_of_no_braces s.data hbrace
  have hfil : List.filter (fun c => !(c == '-')) s.data = p1 ++ (p2 ++ (p3 ++ (p4 ++ p5))) := by
    rw [hsd]
    simp only [List.filter_append, List.filter_cons]
    rw [filter_ne_dash_of_hex p1 x1, filter_ne_dash_of_hex p2 x2,
      filter_ne_dash_of_hex p3 x3, filter_ne_dash_of_hex p4 x4,
      filter_ne_dash_of_hex p5 x5]
    simp
  have hlen : (p1 ++ (p2 ++ (p3 ++ (p4 ++ p5)))).length = 32 := by
    simp [List.length_append, l1, l2, l3, l4, l5]
  have hall : (p1 ++ (p2 ++ (p3 ++ (p4 ++ p5)))).all isHexDigit = true := by
    simp only [List.all_eq_true]
    intro c hc2
    simp only [List.mem_append] at hc2
    rcases hc2 with h | h | h | h | h
    · exact x1 c h
    · exact x2 c h
    · exact x3 c h
    · exact x4 c h
    · exact x5 c h
  simp only [is_valid_uuid, s1, s2, s3, hfil]
  simp [hlen, hall]

/-- C5 witness: the amended theorem applied at a concrete canonical UUID. -/
theorem C5_witness :
    isCanonicalDashedUUID "3fa85f64-5717-4562-b3fc-2c963f66afa6" = true ∧
    is_valid_uuid "3fa85f64-5717-4562-b3fc-2c963f66afa6" = true :=
  ⟨by decide, C5_canonical_dashed_accepted "3fa85f64-5717-4562-b3fc-2c963f66afa6" (by decide)⟩

/- ### Helpers for the entity graph (claims C2, C3, C7) -/

/-- Clark-notation tags with the same namespace are equal iff the local
names are. -/
theorem clark_inj (ns a b : String) : clark ns a = clark ns b ↔ a = b := by
  constructor
  · intro h
    have hd := congrArg String.data h
    simp only [clark, String.data_append] at hd
    have h2 := List.append_cancel_left hd
    exact congrArg (fun d => String.mk d) h2
  · intro h; rw [h]

/-- Boolean form of `clark_inj`, for reducing tag comparisons. -/
theorem clark_beq_eq (ns a b : String) : (clark ns a == clark ns b) = (a == b) := by
  by_cases h : a = b
  · simp [h]
  · have hne : clark ns a ≠ clark ns b := fun hc => h ((clark_inj ns a b).mp hc)
    simp [h, hne]

/- ### Claim C2 -/

/-- C2, counterexample to the claim as stated: the row's only field is named
`uid`, which contains the substring `uid`, yet generation raises (the code
looks for `_uid`, which `uid` does not contain) and emits no
`ObjectReference`. -/
theorem C2_counterexample :
    strContains (pyLower "uid") "uid" = true ∧
    (add_role_structure ⟨"RDF", "CIM"⟩ defaultFixedResources
      [TPiece.lit "R"] [TPiece.lit "G"] [("uid", "w")] "f" "r1" "p1" "g1" "o1").2.isSome
      = true ∧
    objectUidText ⟨"RDF", "CIM"⟩
      ((add_role_structure ⟨"RDF", "CIM"⟩ defaultFixedResources
        [TPiece.lit "R"] [TPiece.lit "G"] [("uid", "w")] "f" "r1" "p1" "g1" "o1").1)
      = none := by
  refine ⟨by decide, by decide, by decide⟩

/-- C2 (amended): for a validated row whose name templates format, if the
row has at least one field whose name contains `_uid` (case-insensitive),
the ObjectReference's objectUid text is the value of the first such field in
row iteration order and no error is raised; if the row has no such field,
generation raises an error for that row and no ObjectReference is emitted. -/
theorem C2_object_uid_resolution (ns : Namespaces) (fixed : FixedResources)
    (roleT dgT : List TPiece) (data : Row) (fld r p g o rn dn : String)
    (hr : formatTemplate roleT data = .ok rn)
    (hd : formatTemplate dgT data = .ok dn) :
    (∀ kv, List.find? hasUidKey data = some kv →
      (add_role_structure ns fixed roleT dgT data fld r p g o).2 = none ∧
      objectUidText ns (add_role_structure ns fixed roleT dgT data fld r p g o).1
        = some kv.2) ∧
    (List.find? hasUidKey data = none →
      (add_role_structure ns fixed roleT dgT data fld r p g o).2.isSome = true ∧
      List.all (add_role_structure ns fixed roleT dgT data fld r p g o).1
        (fun e => !(tagOf e == clark ns.cim "ObjectReference")) = true) := by
  constructor
  · intro kv hfind
    constructor
    · simp [add_role_structure, hr, hd, hfind]
    · simp [add_role_structure, hr, hd, hfind, objectUidText, firstChildWithTag,
        attrVal, tagOf, childrenOf, attrsOf, textOf, List.find?, clark_beq_eq]
  · intro hfind
    constructor
    · simp [add_role_structure, hr, hd, hfind]
    · simp [add_role_structure, hr, hd, hfind, tagOf, clark_beq_eq]

/-- C2 witness: both branches of the amended theorem at concrete rows: the
first `_uid` field (in iteration order, here the second of two) supplies the
objectUid; a row without any `_uid` field raises. -/
theorem C2_witness :
    ((add_role_structure ⟨"RDF", "CIM"⟩ defaultFixedResources [TPiece.lit "R"]
        [TPiece.lit "G"] [("name", "x"), ("dev_uid", "w1"), ("app_uid", "w2")]
        "f" "r1" "p1" "g1" "o1").2 = none ∧
      objectUidText ⟨"RDF", "CIM"⟩
        ((add_role_structure ⟨"RDF", "CIM"⟩ defaultFixedResources [TPiece.lit "R"]
          [TPiece.lit "G"] [("name", "x"), ("dev_uid", "w1"), ("app_uid", "w2")]
          "f" "r1" "p1" "g1" "o1").1) = some "w1") ∧
    (add_role_structure ⟨"RDF", "CIM"⟩ defaultFixedResources [TPiece.lit "R"]
        [TPiece.lit "G"] [("name", "x")] "f" "r1" "p1" "g1" "o1").2.isSome = true := by
  constructor
  · exact (C2_object_uid_resolution ⟨"RDF", "CIM"⟩ defaultFixedResources
      [TPiece.lit "R"] [TPiece.lit "G"] [("name", "x"), ("dev_uid", "w1"), ("app_uid", "w2")]
      "f" "r1" "p1" "g1" "o1" "R" "G" rfl rfl).1 ("dev_uid", "w1") (by decide)
  · exact ((C2_object_uid_resolution ⟨"RDF", "CIM"⟩ defaultFixedResources
      [TPiece.lit "R"] [TPiece.lit "G"] [("name", "x")]
      "f" "r1" "p1" "g1" "o1" "R" "G" rfl rfl).2 (by decide)).1

/- ### Claim C3 -/

/-- C3: for every row for which the four-entity structure is emitted, the
references form a fully linked cycle: Role.Privileges → Privilege,
Privilege.DataItems → DataGroup, DataGroup.Objects → ObjectReference, and
back, Privilege.Role → Role, DataItem.Privileges → Privilege,
ObjectReference.Group → DataGroup. -/
theorem C3_references_fully_linked (ns : Namespaces) (fixed : FixedResources)
    (roleT dgT : List TPiece) (data : Row) (fld r p g o rn dn : String)
    (kv : String × String)
    (hr : formatTemplate roleT data = .ok rn)
    (hd : formatTemplate dgT data = .ok dn)
    (hu : List.find? hasUidKey data = some kv) :
    ∃ re pe ge oe,
      (add_role_structure ns fixed roleT dgT data fld r p g o).1 = [re, pe, ge, oe] ∧
      linkRes ns re "Role.Privileges" = aboutAttr ns pe ∧
      linkRes ns pe "Privilege.DataItems" = aboutAttr ns ge ∧
      linkRes ns ge "DataGroup.Objects" = aboutAttr ns oe ∧
      linkRes ns pe "Privilege.Role" = aboutAttr ns re ∧
      linkRes ns ge "DataItem.Privileges" = aboutAttr ns pe ∧
      linkRes ns oe "ObjectReference.Group" = aboutAttr ns ge := by
  simp only [add_role_structure, hr, hd, hu]
  refine ⟨_, _, _, _, rfl, ?_, ?_, ?_, ?_, ?_, ?_⟩
  all_goals
    simp [linkRes, firstChildWithTag, childrenOf, tagOf, resourceAttr, aboutAttr,
      attrVal, attrsOf, List.find?, clark_beq_eq]

/-- C3 witness: the theorem at a concrete row and concrete UIDs. -/
theorem C3_witness :
    ∃ re pe ge oe,
      (add_role_structure ⟨"RDF", "CIM"⟩ defaultFixedResources [TPiece.lit "R"]
        [TPiece.lit "G"] [("user_uid", "w")] "f" "r1" "p1" "g1" "o1").1
        = [re, pe, ge, oe] ∧
      linkRes ⟨"RDF", "CIM"⟩ re "Role.Privileges" = aboutAttr ⟨"RDF", "CIM"⟩ pe ∧
      linkRes ⟨"RDF", "CIM"⟩ pe "Privilege.DataItems" = aboutAttr ⟨"RDF", "CIM"⟩ ge ∧
      linkRes ⟨"RDF", "CIM"⟩ ge "DataGroup.Objects" = aboutAttr ⟨"RDF", "CIM"⟩ oe ∧
      linkRes ⟨"RDF", "CIM"⟩ pe "Privilege.Role" = aboutAttr ⟨"RDF", "CIM"⟩ re ∧
      linkRes ⟨"RDF", "CIM"⟩ ge "DataItem.Privileges" = aboutAttr ⟨"RDF", "CIM"⟩ pe ∧
      linkRes ⟨"RDF", "CIM"⟩ oe "ObjectReference.Group" = aboutAttr ⟨"RDF", "CIM"⟩ ge :=
  C3_references_fully_linked ⟨"RDF", "CIM"⟩ defaultFixedResources [TPiece.lit "R"]
    [TPiece.lit "G"] [("user_uid", "w")] "f" "r1" "p1" "g1" "o1" "R" "G"
    ("user_uid", "w") rfl rfl rfl

/- ### Claim C7 -/

/-- C7: when either name template references a field absent from the row,
generation for that row raises (the error is surfaced to the caller, not
swallowed) and nothing — in particular no Role element — is emitted for that
row. -/
theorem C7_template_error_aborts (ns : Namespaces) (fixed : FixedResources)
    (roleT dgT : List TPiece) (data : Row) (fld r p g o : String)
    (h : (∃ f, formatTemplate roleT data = .error f) ∨
         (∃ f, formatTemplate dgT data = .error f)) :
    (add_role_structure ns fixed roleT dgT data fld r p g o).1 = [] ∧
    (add_role_structure ns fixed roleT dgT data fld r p g o).2.isSome = true := by
  rcases h with ⟨f, hf⟩ | ⟨f, hf⟩
  · constructor <;> simp [add_role_structure, hf]
  · cases hrole : formatTemplate roleT data with
    | error e => constructor <;> simp [add_role_structure, hrole]
    | ok rn => constructor <;> simp [add_role_structure, hrole, hf]

/-- C7 witness: a role template referencing the absent field `org_name`
aborts with no output. -/
theorem C7_witness :
    (add_role_structure ⟨"RDF", "CIM"⟩ defaultFixedResources [TPiece.ph "org_name"]
      [TPiece.lit "G"] [("user_uid", "w")] "f" "r1" "p1" "g1" "o1").1 = [] ∧
    (add_role_structure ⟨"RDF", "CIM"⟩ defaultFixedResources [TPiece.ph "org_name"]
      [TPiece.lit "G"] [("user_uid", "w")] "f" "r1" "p1" "g1" "o1").2.isSome = true :=
  C7_template_error_aborts ⟨"RDF", "CIM"⟩ defaultFixedResources [TPiece.ph "org_name"]
    [TPiece.lit "G"] [("user_uid", "w")] "f" "r1" "p1" "g1" "o1"
    (Or.inl ⟨"org_name", rfl⟩)

/- ### Helpers for `format_xml_pretty` idempotence (claim C9) -/

/-- The `withTail` sets the tail. -/
theorem tailOf_withTail (e : XElem) (t : Option String) : tailOf (withTail e t) = t := by
  cases e; rfl

/-- The `withTail` keeps the children. -/
theorem childrenOf_withTail (e : XElem) (t : Option String) :
    childrenOf (withTail e t) = childrenOf e := by
  cases e; rfl

/-- Setting the tail twice keeps the last value. -/
theorem withTail_withTail (e : XElem) (a b : Option String) :
    withTail (withTail e a) b = withTail e b := by
  cases e; rfl

/-- The `indentChildren` never touches the element's own tail. -/
theorem tailOf_indentChildren (sp : List Char) (l : Nat) (e : XElem) :
    tailOf (indentChildren sp l e) = tailOf e := by
  cases e with
  | mk tag attrs text children tail => cases children <;> simp [indentChildren, tailOf]

/-- The `indentChildren` commutes with replacing the element's tail. -/
theorem indentChildren_withTail (sp : List Char) (l : Nat) (e : XElem) (t : Option String) :
    indentChildren sp l (withTail e t) = withTail (indentChildren sp l e) t := by
  cases e with
  | mk tag attrs text children tail => cases children <;> simp [indentChildren, withTail]

/-- The loop preserves the number of children. -/
theorem indentLoop_length (sp : List Char) (m : Nat) :
    ∀ cs : List XElem, (indentLoop sp m cs).length = cs.length := by
  intro cs
  induction cs with
  | nil => rfl
  | cons c rest ih => simp [indentLoop, ih]

/-- The dedent step preserves the number of children. -/
theorem dedentLast_length (i : String) :
    ∀ cs : List XElem, (dedentLast i cs).length = cs.length := by
  intro cs
  induction cs with
  | nil => rfl
  | cons c rest ih =>
    cases rest with
    | nil => simp [dedentLast]
    | cons r rs => simpa [dedentLast] using ih

/-- The `indentChildren` preserves whether the element has children. -/
theorem childrenOf_indentChildren_isEmpty (sp : List Char) (l : Nat) (e : XElem) :
    (childrenOf (indentChildren sp l e)).isEmpty = (childrenOf e).isEmpty := by
  cases e with
  | mk tag attrs text children tail =>
    cases children with
    | nil => simp [indentChildren, childrenOf]
    | cons c rest =>
      simp only [indentChildren, childrenOf]
      obtain ⟨d, ds, hds⟩ := List.exists_cons_of_ne_nil
        (l := dedentLast (indentStr sp l) (indentLoop sp (l + 1) (c :: rest)))
        (by
          intro h
          have := congrArg List.length h
          rw [dedentLast_length, indentLoop_length] at this
          simp at this)
      rw [hds]
      simp

/-- The equation of `indentChildren` on an element with children. -/
theorem indentChildren_mk_cons (sp : List Char) (l : Nat) (tag : String)
    (attrs : List (String × String)) (text : Option String) (c : XElem)
    (rest : List XElem) (tail : Option String) :
    indentChildren sp l (.mk tag attrs text (c :: rest) tail) =
      .mk tag attrs (if wsOpt text then some (indentStr sp (l + 1)) else text)
        (dedentLast (indentStr sp l) (indentLoop sp (l + 1) (c :: rest))) tail := by
  simp [indentChildren]

/-- The padding is whitespace when the space unit is. -/
theorem indentPad_all_ws (sp : List Char) (hsp : sp.all isPyWs = true) :
    ∀ l, (indentPad sp l).all isPyWs = true := by
  intro l
  induction l with
  | zero => rfl
  | succ l ih => simp [indentPad, List.all_append, hsp, ih]

/-- Indentation strings count as whitespace-only slots. -/
theorem wsOpt_indentStr (sp : List Char) (hsp : sp.all isPyWs = true) (l : Nat) :
    wsOpt (some (indentStr sp l)) = true := by
  have hn : isPyWs '\n' = true := by decide
  simp only [wsOpt, indentStr]
  simp [indentPad_all_ws sp hsp l, hn]

/-- One loop step over an element whose tail was replaced by another
whitespace tail is the same as over the original whitespace-tailed
element. -/
theorem indentLoop_singleton_ws (sp : List Char) (m : Nat) (c : XElem) (t : Option String)
    (hc : wsOpt (tailOf c) = true) (ht : wsOpt t = true) :
    indentLoop sp m [withTail c t] = indentLoop sp m [c] := by
  simp only [indentLoop, childrenOf_withTail, indentChildren_withTail]
  by_cases hemp : (childrenOf c).isEmpty = true
  · simp only [hemp, if_true]
    rw [tailOf_withTail]
    simp only [ht, hc, if_true, withTail_withTail]
  · simp only [hemp, Bool.false_eq_true, if_false]
    rw [tailOf_withTail, tailOf_indentChildren]
    simp only [ht, hc, if_true, withTail_withTail]

/-- Re-running the loop after the dedent step gives the same result as
re-running it without the dedent: the dedent only moves a whitespace tail to
another whitespace value, which the loop overwrites either way. -/
theorem indentLoop_dedentLast (sp : List Char) (m : Nat) (ind2 : String)
    (h2 : wsOpt (some ind2) = true) :
    ∀ cs : List XElem, indentLoop sp m (dedentLast ind2 cs) = indentLoop sp m cs := by
  intro cs
  induction cs with
  | nil => rfl
  | cons c rest ih =>
    cases rest with
    | nil =>
      by_cases hws : wsOpt (tailOf c) = true
      · simp only [dedentLast, hws, if_true]
        exact indentLoop_singleton_ws sp m c (some ind2) hws h2
      · simp [dedentLast, hws]
    | cons r rs =>
      simp only [dedentLast, indentLoop, ih]

/-- Joint idempotence of the element pass and the loop pass, by strong
induction on size. -/
theorem indent_idem_main (sp : List Char) (hsp : sp.all isPyWs = true) :
    ∀ n : Nat,
      (∀ e : XElem, sizeOf e ≤ n → ∀ l,
        indentChildren sp l (indentChildren sp l e) = indentChildren sp l e) ∧
      (∀ cs : List XElem, sizeOf cs ≤ n → ∀ m,
        indentLoop sp m (indentLoop sp m cs) = indentLoop sp m cs) := by
  intro n
  induction n using Nat.strong_induction_on with
  | _ n ih =>
    constructor
    · intro e hsize l
      cases e with
      | mk tag attrs text children tail =>
        cases children with
        | nil => simp [indentChildren]
        | cons c rest =>
          have hcs : sizeOf (c :: rest) < n := by
            have h1 : sizeOf (c :: rest) < sizeOf (XElem.mk tag attrs text (c :: rest) tail) := by
              simp only [XElem.mk.sizeOf_spec]
              omega
            omega
          rw [indentChildren_mk_cons]
          obtain ⟨d, ds, hds⟩ := List.exists_cons_of_ne_nil
            (l := dedentLast (indentStr sp l) (indentLoop sp (l + 1) (c :: rest)))
            (by
              intro h
              have := congrArg List.length h
              rw [dedentLast_length, indentLoop_length] at this
              simp at this)
          rw [hds, indentChildren_mk_cons, ← hds]
          have htext : (if wsOpt (if wsOpt text then some (indentStr sp (l + 1)) else text)
              then some (indentStr sp (l + 1))
              else if wsOpt text then some (indentStr sp (l + 1)) else text) =
              (if wsOpt text then some (indentStr sp (l + 1)) else text) := by
            by_cases hw : wsOpt text = true
            · simp [hw, wsOpt_indentStr sp hsp]
            · simp [hw]
          have hkids : dedentLast (indentStr sp l)
              (indentLoop sp (l + 1)
                (dedentLast (indentStr sp l) (indentLoop sp (l + 1) (c :: rest)))) =
              dedentLast (indentStr sp l) (indentLoop sp (l + 1) (c :: rest)) := by
            rw [indentLoop_dedentLast sp (l + 1) (indentStr sp l)
              (wsOpt_indentStr sp hsp l)]
            rw [(ih (sizeOf (c :: rest)) hcs).2 (c :: rest) (le_refl _) (l + 1)]
          rw [htext, hkids]
    · intro cs hsize m
      cases cs with
      | nil => rfl
      | cons c rest =>
        have hc : sizeOf c < n := by
          have h1 : sizeOf c < sizeOf (c :: rest) := by
            simp only [List.cons.sizeOf_spec]
            omega
          omega
        have hrest : sizeOf rest < n := by
          have h1 : sizeOf rest < sizeOf (c :: rest) := by
            simp only [List.cons.sizeOf_spec]
            omega
          omega
        have hloop := (ih (sizeOf rest) hrest).2 rest (le_refl _) m
        simp only [indentLoop]
        by_cases hemp : (childrenOf c).isEmpty = true
        · simp only [hemp, if_true]
          by_cases hws : wsOpt (tailOf c) = true
          · simp only [hws, if_true]
            simp only [childrenOf_withTail, hemp, if_true, tailOf_withTail,
              wsOpt_indentStr sp hsp, withTail_withTail, hloop]
          · simp only [hws, Bool.false_eq_true, if_false, hemp, if_true, hloop]
        · have hidemc := (ih (sizeOf c) hc).1 c (le_refl _) m
          simp only [hemp, Bool.false_eq_true, if_false]
          by_cases hws : wsOpt (tailOf (indentChildren sp m c)) = true
          · simp only [hws, if_true]
            simp only [childrenOf_withTail,
              childrenOf_indentChildren_isEmpty, hemp, Bool.false_eq_true, if_false,
              indentChildren_withTail, hidemc, tailOf_withTail,
              wsOpt_indentStr sp hsp, if_true, withTail_withTail, hloop]
          · simp only [hws, Bool.false_eq_true, if_false]
            simp only [childrenOf_indentChildren_isEmpty, hemp, Bool.false_eq_true,
              if_false, hidemc, hws, hloop]

/-- C9: the pretty-printing pass is idempotent — re-running
`format_xml_pretty` on an already-indented tree changes nothing. -/
theorem C9_format_xml_pretty_idempotent (e : XElem) :
    format_xml_pretty (format_xml_pretty e) = format_xml_pretty e := by
  have hsp : ("  ".data).all isPyWs = true := by decide
  unfold format_xml_pretty etreeIndent
  by_cases hemp : (childrenOf e).isEmpty = true
  · simp [hemp]
  · simp only [hemp, Bool.false_eq_true, if_false,
      childrenOf_indentChildren_isEmpty]
    exact (indent_idem_main "  ".data hsp (sizeOf e)).1 e (le_refl _) 0

/- ### Helpers for the batch orchestrator (claim C8) -/

/-- Inserting a key makes it the looked-up value. -/
theorem dictLookup_insert_self (m : List (String × Bool)) (k : String) (v : Bool) :
    dictLookup (dictInsert m k v) k = some v := by
  induction m with
  | nil => simp [dictInsert, dictLookup, List.find?]
  | cons kv rest ih =>
    by_cases h : kv.1 == k
    · simp [dictInsert, h, dictLookup, List.find?]
    · simp only [dictInsert, h, Bool.false_eq_true, if_false]
      simpa [dictLookup, List.find?, h] using ih

/-- Inserting one key does not change lookups of other keys. -/
theorem dictLookup_insert_other (m : List (String × Bool)) (k k2 : String) (v : Bool)
    (hne : k2 ≠ k) : dictLookup (dictInsert m k v) k2 = dictLookup m k2 := by
  have hkk : (k == k2) = false := by
    simp only [beq_eq_false_iff_ne, ne_eq]
    exact fun h => hne h.symm
  induction m with
  | nil => simp [dictInsert, dictLookup, List.find?, hkk]
  | cons kv rest ih =>
    by_cases h : kv.1 == k
    · have hkv2 : (kv.1 == k2) = false := by
        have : kv.1 = k := by simpa using h
        simp only [this, hkk]
      simp [dictInsert, h, dictLookup, List.find?, hkk, hkv2]
    · simp only [dictInsert, h, Bool.false_eq_true, if_false]
      by_cases h2 : kv.1 == k2
      · simp [dictLookup, List.find?, h2]
      · simpa [dictLookup, List.find?, h2] using ih

/-- The keys after an insert: unchanged if present, appended otherwise. -/
theorem dictInsert_keys (m : List (String × Bool)) (k : String) (v : Bool) :
    (dictInsert m k v).map Prod.fst =
      if k ∈ m.map Prod.fst then m.map Prod.fst else m.map Prod.fst ++ [k] := by
  induction m with
  | nil => simp [dictInsert]
  | cons kv rest ih =>
    by_cases h : kv.1 == k
    · have hk : kv.1 = k := by simpa using h
      simp [dictInsert, h, hk]
    · have hk : ¬ k = kv.1 := by
        intro heq
        exact absurd (by simp [heq]) h
      by_cases hmem : k ∈ rest.map Prod.fst
      · simp [dictInsert, h, hmem, ih, hk]
      · simp [dictInsert, h, hmem, ih, hk]

/-- Inserting preserves key distinctness. -/
theorem dictInsert_nodup (m : List (String × Bool)) (k : String) (v : Bool)
    (h : (m.map Prod.fst).Nodup) : ((dictInsert m k v).map Prod.fst).Nodup := by
  rw [dictInsert_keys]
  by_cases hmem : k ∈ m.map Prod.fst
  · simpa [hmem] using h
  · simp only [hmem, if_false]
    rw [← List.concat_eq_append]
    exact List.Nodup.concat hmem h

/-- Key membership after an insert. -/
theorem dictInsert_mem_keys (m : List (String × Bool)) (k f : String) (v : Bool) :
    f ∈ (dictInsert m k v).map Prod.fst ↔ f = k ∨ f ∈ m.map Prod.fst := by
  rw [dictInsert_keys]
  by_cases hmem : k ∈ m.map Prod.fst
  · simp only [hmem, if_true]
    constructor
    · exact fun h => Or.inr h
    · rintro (h | h)
      · exact h ▸ hmem
      · exact h
  · simp only [hmem, if_false, List.mem_append, List.mem_singleton]
    tauto

/-- With distinct keys, membership determines the lookup. -/
theorem dictLookup_of_mem (m : List (String × Bool)) (f : String) (b : Bool)
    (hnd : (m.map Prod.fst).Nodup) (hmem : (f, b) ∈ m) : dictLookup m f = some b := by
  induction m with
  | nil => exact absurd hmem (List.not_mem_nil _)
  | cons kv rest ih =>
    simp only [List.map_cons, List.nodup_cons] at hnd
    rcases List.mem_cons.mp hmem with h | h
    · subst h
      simp [dictLookup, List.find?]
    · have hf : f ∈ rest.map Prod.fst := List.mem_map.mpr ⟨(f, b), h, rfl⟩
      have hne : (kv.1 == f) = false := by
        simp only [beq_eq_false_iff_ne, ne_eq]
        intro heq
        exact hnd.1 (heq ▸ hf)
      simpa [dictLookup, List.find?, hne] using ih hnd.2 h

/-- The results accumulated by the batch loop: each processed file maps to
the outcome of its own processing; files not in the list keep their prior
entry. -/
theorem processFileListAux_lookup (outcome : String → String → FileOutcome)
    (dir : String) :
    ∀ (files : List String) (acc : List (String × Bool)) (f : String),
      dictLookup (processFileListAux outcome dir files acc) f =
        if f ∈ files
        then some (process_csv_file_stream (outcome (pathJoin dir f) (xml_path_for dir f)))
        else dictLookup acc f := by
  intro files
  induction files with
  | nil => intro acc f; simp [processFileListAux]
  | cons x rest ih =>
    intro acc f
    simp only [processFileListAux]
    rw [ih]
    by_cases hf : f ∈ rest
    · simp [hf, List.mem_cons]
    · by_cases hx : f = x
      · subst hx
        simp [hf, dictLookup_insert_self, List.mem_cons]
      · have hmem : f ∉ x :: rest := by
          simp [List.mem_cons, hx, hf]
        simp [hf, hmem, dictLookup_insert_other acc x f _ hx]

/-- Keys of the accumulated results. -/
theorem processFileListAux_mem_keys (outcome : String → String → FileOutcome)
    (dir : String) :
    ∀ (files : List String) (acc : List (String × Bool)) (f : String),
      f ∈ (processFileListAux outcome dir files acc).map Prod.fst ↔
        f ∈ files ∨ f ∈ acc.map Prod.fst := by
  intro files
  induction files with
  | nil => intro acc f; simp [processFileListAux]
  | cons x rest ih =>
    intro acc f
    simp only [processFileListAux]
    rw [ih, dictInsert_mem_keys]
    simp [List.mem_cons]
    tauto

/-- The accumulated results keep distinct keys. -/
theorem processFileListAux_nodup (outcome : String → String → FileOutcome)
    (dir : String) :
    ∀ (files : List String) (acc : List (String × Bool)),
      (acc.map Prod.fst).Nodup →
      ((processFileListAux outcome dir files acc).map Prod.fst).Nodup := by
  intro files
  induction files with
  | nil => intro acc h; simpa [processFileListAux] using h
  | cons x rest ih =>
    intro acc h
    exact ih _ (dictInsert_nodup acc x _ h)

/- ### Claim C8 -/

/-- C8: batch processing returns a result map with exactly one boolean entry
per input filename: its key set is exactly the set of input filenames, with
no duplicate keys; each file's recorded boolean is determined solely by its
own processing outcome (a file that raises at any stage is recorded `false`,
one that completes is recorded `true`), independently of the other files;
and each file is processed with an output path made of the input stem plus
`.xml` in the input directory. -/
theorem C8_batch_results (outcome : String → String → FileOutcome) (dir : String)
    (files : List String) :
    ((process_file_list outcome dir files).map Prod.fst).Nodup ∧
    (∀ f, f ∈ (process_file_list outcome dir files).map Prod.fst ↔ f ∈ files) ∧
    (∀ f, f ∈ files →
      dictLookup (process_file_list outcome dir files) f =
        some (process_csv_file_stream (outcome (pathJoin dir f) (xml_path_for dir f)))) ∧
    (∀ f b, (f, b) ∈ process_file_list outcome dir files →
      b = process_csv_file_stream (outcome (pathJoin dir f) (xml_path_for dir f))) ∧
    (∀ o : FileOutcome, process_csv_file_stream o =
      (exceptOk o.encodingResult && exceptOk o.generateResult)) := by
  have hnodup : ((process_file_list outcome dir files).map Prod.fst).Nodup :=
    processFileListAux_nodup outcome dir files [] (by simp)
  have hkeys : ∀ f, f ∈ (process_file_list outcome dir files).map Prod.fst ↔ f ∈ files := by
    intro f
    have := processFileListAux_mem_keys outcome dir files [] f
    simpa [process_file_list] using this
  have hlook : ∀ f, f ∈ files →
      dictLookup (process_file_list outcome dir files) f =
        some (process_csv_file_stream (outcome (pathJoin dir f) (xml_path_for dir f))) := by
    intro f hf
    have := processFileListAux_lookup outcome dir files [] f
    simpa [process_file_list, hf] using this
  refine ⟨hnodup, hkeys, hlook, ?_, ?_⟩
  · intro f b hmem
    have hf : f ∈ files := (hkeys f).mp (List.mem_map.mpr ⟨(f, b), hmem, rfl⟩)
    have h1 := dictLookup_of_mem _ f b hnodup hmem
    have h2 := hlook f hf
    rw [h1] at h2
    exact Option.some_injective _ h2
  · intro o
    cases o with
    | mk er gr => cases er <;> cases gr <;> rfl

/-- C8 witness: the spec's three-file scenario — the second file raises
during generation, the other two succeed; the result map reads
`f1 ↦ true, f2 ↦ false, f3 ↦ true`. -/
theorem C8_witness :
    dictLookup (process_file_list
      (fun c _ => if c == pathJoin "d" "f2.csv"
        then ⟨Except.ok "enc", Except.error "boom"⟩
        else ⟨Except.ok "enc", Except.ok ()⟩)
      "d" ["f1.csv", "f2.csv", "f3.csv"]) "f1.csv" = some true ∧
    dictLookup (process_file_list
      (fun c _ => if c == pathJoin "d" "f2.csv"
        then ⟨Except.ok "enc", Except.error "boom"⟩
        else ⟨Except.ok "enc", Except.ok ()⟩)
      "d" ["f1.csv", "f2.csv", "f3.csv"]) "f2.csv" = some false ∧
    dictLookup (process_file_list
      (fun c _ => if c == pathJoin "d" "f2.csv"
        then ⟨Except.ok "enc", Except.error "boom"⟩
        else ⟨Except.ok "enc", Except.ok ()⟩)
      "d" ["f1.csv", "f2.csv", "f3.csv"]) "f3.csv" = some true := by
  refine ⟨?_, ?_, ?_⟩
  · exact ((C8_batch_results _ "d" _).2.2.1 "f1.csv" (by decide)).trans (by decide)
  · exact ((C8_batch_results _ "d" _).2.2.1 "f2.csv" (by decide)).trans (by decide)
  · exact ((C8_batch_results _ "d" _).2.2.1 "f3.csv" (by decide)).trans (by decide)

end RoleCreator
